import Mathlib

/-!
Shallow embedding of the Referral4Referral queue engine
(src/database.py and src/queue_manager.py).

Modelling conventions:
* Python `int` user ids are `Nat`; Python truthiness on ids is modelled
  explicitly (`0` and `None` are falsy, every other id is truthy).
* The SQLite tables become pure record fields: `users` is the `users`
  table in insertion order (insertion order coincides with the
  `created_at ASC` order used by the queries, since rows are inserted
  with a monotone clock), `referral_history` is the append-only
  `referral_history` table, and `queue_state` is the single-row
  `queue_state` table (`none` = no row saved yet).
* Timestamp columns (`created_at`, `updated_at`, `completed_at`) are
  omitted: no verified property reads them, and ordering by `created_at`
  is represented by list order as explained above.
* Mutating methods return `(result, newState)` pairs.
-/

/-- `UserStatus` enum from database.py. -/
inductive UserStatus where
  | waiting
  | assigned
  | done
deriving DecidableEq, Repr

/-- `User` dataclass from database.py (timestamps omitted, see header). -/
structure User where
  user_id : Nat
  referral_link : String
  status : UserStatus
  assigned_to : Option Nat := none
  completed_referrals : Nat := 0
deriving DecidableEq, Repr

/-- State of the SQLite database from database.py. -/
structure Database where
  users : List User := []
  referral_history : List (Nat × Nat) := []
  queue_state : Option (List Nat) := none
deriving DecidableEq, Repr

/-- `Database.user_exists`: `SELECT 1 FROM users WHERE user_id = ?`. -/
def Database.user_exists (db : Database) (uid : Nat) : Bool :=
  db.users.any (fun u => u.user_id == uid)

/-- `Database.link_exists`: `SELECT 1 FROM users WHERE referral_link = ?`. -/
def Database.link_exists (db : Database) (link : String) : Bool :=
  db.users.any (fun u => u.referral_link == link)

/-- `Database.add_user`: INSERT of a fresh row with status `waiting`;
the `sqlite3.IntegrityError` branch (PRIMARY KEY on `user_id`, UNIQUE on
`referral_link`) returns `false` and leaves the table unchanged. -/
def Database.add_user (db : Database) (uid : Nat) (link : String) :
    Bool × Database :=
  if db.user_exists uid || db.link_exists link then
    (false, db)
  else
    (true, { db with
      users := db.users ++ [{ user_id := uid, referral_link := link,
                              status := UserStatus.waiting }] })

/-- `Database.get_user`: `SELECT * FROM users WHERE user_id = ?` (first row). -/
def Database.get_user (db : Database) (uid : Nat) : Option User :=
  db.users.find? (fun u => u.user_id == uid)

/-- `Database.update_user_status`: `UPDATE users SET status = ?, assigned_to = ?
WHERE user_id = ?`; the Bool is `rowcount > 0`. -/
def Database.update_user_status (db : Database) (uid : Nat)
    (status : UserStatus) (assigned_to : Option Nat) : Bool × Database :=
  (db.user_exists uid,
   { db with users := db.users.map (fun u =>
       if u.user_id == uid then
         { u with status := status, assigned_to := assigned_to }
       else u) })

/-- `Database.increment_completed_referrals`:
`UPDATE users SET completed_referrals = completed_referrals + 1 WHERE user_id = ?`. -/
def Database.increment_completed_referrals (db : Database) (uid : Nat) :
    Bool × Database :=
  (db.user_exists uid,
   { db with users := db.users.map (fun u =>
       if u.user_id == uid then
         { u with completed_referrals := u.completed_referrals + 1 }
       else u) })

/-- `Database.remove_user`: `DELETE FROM users WHERE user_id = ?`. -/
def Database.remove_user (db : Database) (uid : Nat) : Bool × Database :=
  (db.user_exists uid,
   { db with users := db.users.filter (fun u => !(u.user_id == uid)) })

/-- `Database.get_users_by_status`:
`SELECT * FROM users WHERE status = ? ORDER BY created_at ASC`. -/
def Database.get_users_by_status (db : Database) (status : UserStatus) :
    List User :=
  db.users.filter (fun u => u.status == status)

/-- `Database.add_referral_history`: append-only INSERT into
`referral_history`. -/
def Database.add_referral_history (db : Database) (referrer_id referee_id : Nat) :
    Bool × Database :=
  (true, { db with referral_history := db.referral_history ++ [(referrer_id, referee_id)] })

/-- `Database.has_interacted_before`: `SELECT 1 FROM referral_history
WHERE referrer_id = ? AND referee_id = ?` — one direction only. -/
def Database.has_interacted_before (db : Database) (uid target_id : Nat) : Bool :=
  db.referral_history.any (fun p => p.1 == uid && p.2 == target_id)

/-- `Database.get_queue_state`: the saved queue order, `none` when the
`queue_state` table has no row (JSON decode of an int list is the
identity round trip). -/
def Database.get_queue_state (db : Database) : Option (List Nat) :=
  db.queue_state

/-- `Database.save_queue_state`: delete the old row and insert the new
serialized queue order. -/
def Database.save_queue_state (db : Database) (queue_order : List Nat) : Database :=
  { db with queue_state := some queue_order }

/-- State of `QueueManager` from queue_manager.py: the database handle and
the in-memory `self.queue` list. -/
structure QueueManager where
  db : Database
  queue : List Nat
deriving DecidableEq, Repr

/-- The empty system state: empty database, empty in-memory queue
(what `QueueManager(Database(...))` yields on a fresh database). -/
def QueueManager.empty : QueueManager := { db := {}, queue := [] }

/-- `QueueManager._load_queue_from_db`: use the saved queue order when it
is truthy (Python `if saved_queue:` — `None` and the empty list are
falsy), filtered to still-existing users; otherwise reconstruct the
queue from the users in WAITING status. -/
def loadQueueFromDb (db : Database) : List Nat :=
  match db.get_queue_state with
  | some saved =>
      if saved.isEmpty then
        (db.get_users_by_status UserStatus.waiting).map (fun u => u.user_id)
      else
        saved.filter (fun uid => db.user_exists uid)
  | none => (db.get_users_by_status UserStatus.waiting).map (fun u => u.user_id)

/-- `QueueManager.__init__`: store the database and load the queue. -/
def QueueManager.ofDatabase (db : Database) : QueueManager :=
  { db := db, queue := loadQueueFromDb db }

/-- `QueueManager._save_queue_to_db`. -/
def saveQueueToDb (qm : QueueManager) : QueueManager :=
  { qm with db := qm.db.save_queue_state qm.queue }

/-- `QueueManager.add_user_to_queue`. -/
def QueueManager.add_user_to_queue (qm : QueueManager) (uid : Nat)
    (link : String) : (Bool × String) × QueueManager :=
  if qm.db.user_exists uid then
    ((false, "You are already in the queue."), qm)
  else if qm.db.link_exists link then
    ((false, "This referral link is already registered."), qm)
  else
    let r := qm.db.add_user uid link
    if !r.1 then
      ((false, "Failed to add user. Please try again."), { qm with db := r.2 })
    else
      ((true, "Your referral link has been added! You are in the queue."),
       saveQueueToDb { db := r.2, queue := qm.queue ++ [uid] })

/-- `QueueManager.get_queue_position`: 1-indexed position via `list.index`,
`None` when absent (the `ValueError` branch). -/
def QueueManager.get_queue_position (qm : QueueManager) (uid : Nat) : Option Nat :=
  if uid ∈ qm.queue then some (qm.queue.indexOf uid + 1) else none

/-- `QueueManager.get_next_user_to_assign`: first queue entry whose user
row exists and is WAITING. -/
def QueueManager.get_next_user_to_assign (qm : QueueManager) : Option Nat :=
  qm.queue.find? (fun uid =>
    match qm.db.get_user uid with
    | some u => u.status == UserStatus.waiting
    | none => false)

/-- `QueueManager.get_referral_target`: the queue entry directly after
`uid` (1-indexed `position` is the 0-indexed index of the successor). -/
def QueueManager.get_referral_target (qm : QueueManager) (uid : Nat) : Option Nat :=
  match qm.get_queue_position uid with
  | none => none
  | some position =>
      if position < qm.queue.length then some (qm.queue.getD position 0)
      else none

/-- Python truthiness of an `Optional[int]`: `None` and `0` are falsy. -/
def truthyOptNat : Option Nat → Bool
  | none => false
  | some n => n != 0

/-- The `while next_pos < len(self.queue)` scan loop of
`QueueManager.assign_referral`, with an explicit fuel bound (the loop
increases `next_pos` by 1 each step, so `queue.length - next_pos` steps
always suffice): return the first queue entry at index ≥ `next_pos` that
has not interacted with `uid`, else `none` (the `while/else` branch). -/
def scanForwardAux (db : Database) (uid : Nat) (queue : List Nat) :
    Nat → Nat → Option Nat
  | 0, _ => none
  | fuel + 1, next_pos =>
      if next_pos < queue.length then
        match db.has_interacted_before uid (queue.getD next_pos 0) with
        | true => scanForwardAux db uid queue fuel (next_pos + 1)
        | false => some (queue.getD next_pos 0)
      else none

/-- The scan loop entered at index `next_pos`, with sufficient fuel. -/
def scanForward (db : Database) (uid : Nat) (queue : List Nat)
    (next_pos : Nat) : Option Nat :=
  scanForwardAux db uid queue (queue.length - next_pos) next_pos

/-- `QueueManager.assign_referral`. Note the Python truthiness check
`if not target_id:` on the queue entry directly after `uid`, and that the
preliminary `target_id` is always overwritten by the scan loop on break. -/
def QueueManager.assign_referral (qm : QueueManager) (uid : Nat) :
    (Bool × Option String × Option Nat) × QueueManager :=
  match qm.db.get_user uid with
  | none => ((false, none, none), qm)
  | some user =>
    if user.status != UserStatus.waiting then ((false, none, none), qm)
    else
      let target_id := qm.get_referral_target uid
      if !truthyOptNat target_id then ((false, none, none), qm)
      else
        let current_pos := qm.queue.indexOf uid
        match scanForward qm.db uid qm.queue (current_pos + 1) with
        | none => ((false, none, none), qm)
        | some tid =>
          match qm.db.get_user tid with
          | none => ((false, none, none), qm)
          | some target_user =>
            ((true, some target_user.referral_link, some tid),
             { qm with db := (qm.db.update_user_status uid UserStatus.assigned (some tid)).2 })

/-- `QueueManager.mark_referral_completed`. Note the Python truthiness
check `if target_id:` before the history write (`None` and `0` falsy),
and `list.remove` + `append` for the move-to-back. -/
def QueueManager.mark_referral_completed (qm : QueueManager) (uid : Nat) :
    (Bool × String) × QueueManager :=
  match qm.db.get_user uid with
  | none => ((false, "User not found."), qm)
  | some user =>
    if user.status != UserStatus.assigned then
      ((false, "You don\x27t have a pending referral to complete."), qm)
    else
      let target_id := user.assigned_to
      let db1 := (qm.db.increment_completed_referrals uid).2
      let db2 := if truthyOptNat target_id then
                   (db1.add_referral_history uid (target_id.getD 0)).2
                 else db1
      let db3 := (db2.update_user_status uid UserStatus.waiting none).2
      let qm1 : QueueManager := { db := db3, queue := qm.queue }
      let qm2 := if uid ∈ qm1.queue then
                   saveQueueToDb { qm1 with queue := qm1.queue.erase uid ++ [uid] }
                 else qm1
      ((true, "Referral completed! You\x27ve been added back to the queue."), qm2)

/-- `QueueManager.remove_user_from_queue`: only acts when `uid` is in the
in-memory queue; removes the first queue occurrence, deletes the user
row, persists the queue. -/
def QueueManager.remove_user_from_queue (qm : QueueManager) (uid : Nat) :
    (Bool × String) × QueueManager :=
  if uid ∈ qm.queue then
    ((true, "User " ++ toString uid ++ " has been removed from the queue."),
     saveQueueToDb { db := (qm.db.remove_user uid).2, queue := qm.queue.erase uid })
  else
    ((false, "User not in queue."), qm)

/-- `QueueManager.get_user_info` (decorative emoji prefix and the
timestamp line omitted; `position or ...` uses that a present position
is ≥ 1, hence truthy). -/
def QueueManager.get_user_info (qm : QueueManager) (uid : Nat) : Option String :=
  match qm.db.get_user uid with
  | none => none
  | some user =>
    let position := qm.get_queue_position uid
    let status_text :=
      match user.status with
      | UserStatus.waiting => "Waiting for assignment"
      | UserStatus.assigned =>
          "Assigned (refer user " ++
            (match user.assigned_to with
             | some t => toString t
             | none => "None") ++ ")"
      | UserStatus.done => "Completed"
    some ("User Info for " ++ toString uid ++
          "\nStatus: " ++ status_text ++
          "\nQueue position: " ++
            (match position with
             | some p => toString p
             | none => "Not in queue") ++
          "\nReferrals completed: " ++ toString user.completed_referrals)

/-- `QueueManager.get_next_assignment`. Note the Python truthiness check
`if not next_user:` (a first WAITING participant with id `0` is treated
as no participant), and that the queue is persisted only on success. -/
def QueueManager.get_next_assignment (qm : QueueManager) :
    (Option Nat × Option String) × QueueManager :=
  match qm.get_next_user_to_assign with
  | none => ((none, none), qm)
  | some next_user =>
    if next_user == 0 then ((none, none), qm)
    else
      let r := qm.assign_referral next_user
      if r.1.1 then ((some next_user, r.1.2.1), saveQueueToDb r.2)
      else ((none, none), r.2)

/-- The states reachable from the empty state by the Queue Manager
operations: join, assign, complete, remove. -/
inductive Reachable : QueueManager → Prop where
  | empty : Reachable QueueManager.empty
  | join (uid : Nat) (link : String) {qm : QueueManager} :
      Reachable qm → Reachable (qm.add_user_to_queue uid link).2
  | assign (uid : Nat) {qm : QueueManager} :
      Reachable qm → Reachable (qm.assign_referral uid).2
  | complete (uid : Nat) {qm : QueueManager} :
      Reachable qm → Reachable (qm.mark_referral_completed uid).2
  | remove (uid : Nat) {qm : QueueManager} :
      Reachable qm → Reachable (qm.remove_user_from_queue uid).2
/-- Structural invariant of reachable Queue Manager states: the in-memory
queue has no duplicates, its entries are exactly the stored user ids, the
stored user ids are pairwise distinct, and every stored user is either
WAITING with no assignment or ASSIGNED with an assignment. -/
def QueueInv (qm : QueueManager) : Prop :=
  qm.queue.Nodup ∧
  (∀ x : Nat, x ∈ qm.queue ↔ x ∈ qm.db.users.map (fun u => u.user_id)) ∧
  (qm.db.users.map (fun u => u.user_id)).Nodup ∧
  (∀ u ∈ qm.db.users,
    (u.status = UserStatus.waiting ∧ u.assigned_to = none) ∨
    (u.status = UserStatus.assigned ∧ u.assigned_to ≠ none))

/-! ### Concrete states used by witnesses and counterexamples -/

/-- Join participant 1 with link "a", then participant 2 with link "b":
queue `[1, 2]`, both WAITING, empty history. -/
def qmAB : QueueManager :=
  ((QueueManager.empty.add_user_to_queue 1 "a").2.add_user_to_queue 2 "b").2

/-- `qmAB` after `assign_referral 1`: participant 1 is ASSIGNED to 2. -/
def qmABassigned : QueueManager := (qmAB.assign_referral 1).2

/-- Join participant 1 with link "a", then participant 0 with link "b":
queue `[1, 0]`, both WAITING, empty history. -/
def qmZ1 : QueueManager :=
  ((QueueManager.empty.add_user_to_queue 1 "a").2.add_user_to_queue 0 "b").2

/-- Join participant 0 with link "a", then participant 1 with link "b":
queue `[0, 1]`, both WAITING, empty history. -/
def qmZ0 : QueueManager :=
  ((QueueManager.empty.add_user_to_queue 0 "a").2.add_user_to_queue 1 "b").2

/-- Reachable state in which participant 1 is ASSIGNED with
`assigned_to = some 0`: join 1, join 2, assign 1 (to 2), complete 1,
assign 2 (to 1), complete 2, join 0, assign 1 (skips 2, lands on 0). -/
def qmT0 : QueueManager :=
  ((((((qmAB.assign_referral 1).2.mark_referral_completed 1).2.assign_referral
    2).2.mark_referral_completed 2).2.add_user_to_queue 0 "c").2.assign_referral 1).2

/-- The exhaustion scenario of the spec: queue `[1, 2]`, both WAITING,
with the pairing `(1, 2)` already recorded. -/
def qmExh : QueueManager :=
  { db := { users := [{ user_id := 1, referral_link := "a",
                        status := UserStatus.waiting, assigned_to := none,
                        completed_referrals := 1 },
                      { user_id := 2, referral_link := "b",
                        status := UserStatus.waiting, assigned_to := none,
                        completed_referrals := 0 }],
            referral_history := [(1, 2)],
            queue_state := some [1, 2] },
    queue := [1, 2] }

/-- A store holding a single WAITING participant with id 1. -/
def dbSingle : Database :=
  { users := [{ user_id := 1, referral_link := "a",
                status := UserStatus.waiting }] }

/-- Queue `[1, 2]`, both WAITING, with the reverse pairing `(2, 1)`
recorded: participant 2 has referred 1, but not the other way round. -/
def qmAsym : QueueManager :=
  { db := { users := [{ user_id := 1, referral_link := "a",
                        status := UserStatus.waiting },
                      { user_id := 2, referral_link := "b",
                        status := UserStatus.waiting }],
            referral_history := [(2, 1)],
            queue_state := some [1, 2] },
    queue := [1, 2] }

/-- The state after joining participant 1 with link "a" from the empty state. -/
def qmA : QueueManager := (QueueManager.empty.add_user_to_queue 1 "a").2

/-! ### Helper lemmas about the store operations -/

theorem find_userId_map (l : List User) (uid : Nat) (f : User → User)
    (hf : ∀ u, (f u).user_id = u.user_id) :
    (l.map (fun u => if u.user_id == uid then f u else u)).find?
        (fun u => u.user_id == uid)
      = (l.find? (fun u => u.user_id == uid)).map f := by
  induction l with
  | nil => rfl
  | cons a l ih =>
    simp only [List.map_cons, List.find?_cons]
    by_cases h : (a.user_id == uid) = true
    · rw [if_pos h, hf a, h]
      rfl
    · have h' : (a.user_id == uid) = false := by
        cases hb : (a.user_id == uid) with
        | true => exact absurd hb h
        | false => rfl
      rw [if_neg h, h']
      exact ih

theorem get_user_update (db : Database) (uid : Nat) (st : UserStatus)
    (ato : Option Nat) :
    ((db.update_user_status uid st ato).2).get_user uid
      = (db.get_user uid).map (fun u => { u with status := st, assigned_to := ato }) := by
  simpa [Database.get_user, Database.update_user_status] using
    find_userId_map db.users uid
      (fun u => { u with status := st, assigned_to := ato }) (fun u => rfl)

theorem get_user_increment (db : Database) (uid : Nat) :
    ((db.increment_completed_referrals uid).2).get_user uid
      = (db.get_user uid).map
          (fun u => { u with completed_referrals := u.completed_referrals + 1 }) := by
  simpa [Database.get_user, Database.increment_completed_referrals] using
    find_userId_map db.users uid
      (fun u => { u with completed_referrals := u.completed_referrals + 1 })
      (fun u => rfl)

theorem userId_map_pointwise (l : List User) (uid : Nat) (f : User → User)
    (hf : ∀ u, (f u).user_id = u.user_id) :
    (l.map (fun u => if u.user_id == uid then f u else u)).map (fun u => u.user_id)
      = l.map (fun u => u.user_id) := by
  induction l with
  | nil => rfl
  | cons a l ih =>
    simp only [List.map_cons, ih]
    by_cases h : (a.user_id == uid) = true <;> simp [h, hf]

theorem user_exists_iff (db : Database) (uid : Nat) :
    db.user_exists uid = true ↔ uid ∈ db.users.map (fun u => u.user_id) := by
  simp only [Database.user_exists, List.any_eq_true, List.mem_map, beq_iff_eq]

theorem get_user_mem {db : Database} {uid : Nat} {u : User}
    (h : db.get_user uid = some u) : u ∈ db.users ∧ u.user_id = uid := by
  have h' : db.users.find? (fun u => u.user_id == uid) = some u := h
  refine ⟨List.mem_of_find?_eq_some h', ?_⟩
  simpa using List.find?_some h'

theorem get_user_remove (db : Database) (uid : Nat) :
    ((db.remove_user uid).2).get_user uid = none := by
  simp only [Database.get_user, Database.remove_user, List.find?_eq_none,
    List.mem_filter]
  intro u hu
  simpa using hu.2

theorem user_exists_remove (db : Database) (uid : Nat) :
    ((db.remove_user uid).2).user_exists uid = false := by
  simp only [Database.remove_user, Database.user_exists, List.any_eq_false,
    List.mem_filter]
  intro u hu
  simpa using hu.2

/-! ### Helper lemmas about the assignment scan loop -/

theorem scanForwardAux_succ (db : Database) (uid : Nat) (queue : List Nat)
    (n next_pos : Nat) :
    scanForwardAux db uid queue (n + 1) next_pos
      = if next_pos < queue.length then
          (match db.has_interacted_before uid (queue.getD next_pos 0) with
           | true => scanForwardAux db uid queue n (next_pos + 1)
           | false => some (queue.getD next_pos 0))
        else none := rfl

theorem scanForwardAux_eq_some (db : Database) (uid : Nat) (queue : List Nat) :
    ∀ (fuel start j : Nat), start ≤ j → j < queue.length →
      queue.length - start ≤ fuel →
      db.has_interacted_before uid (queue.getD j 0) = false →
      (∀ k, start ≤ k → k < j →
        db.has_interacted_before uid (queue.getD k 0) = true) →
      scanForwardAux db uid queue fuel start = some (queue.getD j 0) := by
  intro fuel
  induction fuel with
  | zero => intro start j h1 h2 h3 _ _; omega
  | succ n ih =>
    intro start j h1 h2 h3 he hb
    have hs : start < queue.length := Nat.lt_of_le_of_lt h1 h2
    rw [scanForwardAux_succ, if_pos hs]
    by_cases hsj : start = j
    · subst hsj
      rw [he]
    · have hlt : start < j := Nat.lt_of_le_of_ne h1 hsj
      rw [hb start (Nat.le_refl _) hlt]
      exact ih (start + 1) j hlt h2 (by omega) he
        (fun k hk1 hk2 => hb k (by omega) hk2)

theorem scanForward_eq_some (db : Database) (uid : Nat) (queue : List Nat)
    (start j : Nat) (h1 : start ≤ j) (h2 : j < queue.length)
    (he : db.has_interacted_before uid (queue.getD j 0) = false)
    (hb : ∀ k, start ≤ k → k < j →
      db.has_interacted_before uid (queue.getD k 0) = true) :
    scanForward db uid queue start = some (queue.getD j 0) :=
  scanForwardAux_eq_some db uid queue (queue.length - start) start j h1 h2
    (Nat.le_refl _) he hb

theorem scanForwardAux_eq_none (db : Database) (uid : Nat) (queue : List Nat) :
    ∀ (fuel start : Nat),
      (∀ k, start ≤ k → k < queue.length →
        db.has_interacted_before uid (queue.getD k 0) = true) →
      scanForwardAux db uid queue fuel start = none := by
  intro fuel
  induction fuel with
  | zero => intro start _; rfl
  | succ n ih =>
    intro start hb
    rw [scanForwardAux_succ]
    by_cases hs : start < queue.length
    · rw [if_pos hs, hb start (Nat.le_refl _) hs]
      exact ih (start + 1) (fun k hk1 hk2 => hb k (by omega) hk2)
    · rw [if_neg hs]

theorem scanForward_eq_none (db : Database) (uid : Nat) (queue : List Nat)
    (start : Nat)
    (hb : ∀ k, start ≤ k → k < queue.length →
      db.has_interacted_before uid (queue.getD k 0) = true) :
    scanForward db uid queue start = none :=
  scanForwardAux_eq_none db uid queue (queue.length - start) start hb

/-! ### Branch characterizations of the Queue Manager operations -/

theorem add_user_already (qm : QueueManager) (uid : Nat) (link : String)
    (h1 : qm.db.user_exists uid = true) :
    qm.add_user_to_queue uid link = ((false, "You are already in the queue."), qm) := by
  simp [QueueManager.add_user_to_queue, h1]

theorem add_user_duplicate_link (qm : QueueManager) (uid : Nat) (link : String)
    (h1 : qm.db.user_exists uid = false) (h2 : qm.db.link_exists link = true) :
    qm.add_user_to_queue uid link
      = ((false, "This referral link is already registered."), qm) := by
  simp [QueueManager.add_user_to_queue, h1, h2]

theorem add_user_success (qm : QueueManager) (uid : Nat) (link : String)
    (h1 : qm.db.user_exists uid = false) (h2 : qm.db.link_exists link = false) :
    qm.add_user_to_queue uid link
      = ((true, "Your referral link has been added! You are in the queue."),
         { db := { users := qm.db.users ++
                     [{ user_id := uid, referral_link := link,
                        status := UserStatus.waiting }],
                   referral_history := qm.db.referral_history,
                   queue_state := some (qm.queue ++ [uid]) },
           queue := qm.queue ++ [uid] }) := by
  simp [QueueManager.add_user_to_queue, Database.add_user, saveQueueToDb,
    Database.save_queue_state, h1, h2]

theorem assign_referral_not_found (qm : QueueManager) (uid : Nat)
    (h : qm.db.get_user uid = none) :
    qm.assign_referral uid = ((false, none, none), qm) := by
  simp [QueueManager.assign_referral, h]

theorem assign_referral_not_waiting (qm : QueueManager) (uid : Nat) (u : User)
    (h : qm.db.get_user uid = some u) (hw : u.status ≠ UserStatus.waiting) :
    qm.assign_referral uid = ((false, none, none), qm) := by
  simp [QueueManager.assign_referral, h, hw]

theorem assign_referral_no_next (qm : QueueManager) (uid : Nat) (u : User)
    (h : qm.db.get_user uid = some u) (hw : u.status = UserStatus.waiting)
    (ht : truthyOptNat (qm.get_referral_target uid) = false) :
    qm.assign_referral uid = ((false, none, none), qm) := by
  simp [QueueManager.assign_referral, h, hw, ht]

theorem assign_referral_scan_none (qm : QueueManager) (uid : Nat) (u : User)
    (h : qm.db.get_user uid = some u) (hw : u.status = UserStatus.waiting)
    (ht : truthyOptNat (qm.get_referral_target uid) = true)
    (hscan : scanForward qm.db uid qm.queue (qm.queue.indexOf uid + 1) = none) :
    qm.assign_referral uid = ((false, none, none), qm) := by
  simp [QueueManager.assign_referral, h, hw, ht, hscan]

theorem assign_referral_target_missing (qm : QueueManager) (uid tid : Nat)
    (u : User)
    (h : qm.db.get_user uid = some u) (hw : u.status = UserStatus.waiting)
    (ht : truthyOptNat (qm.get_referral_target uid) = true)
    (hscan : scanForward qm.db uid qm.queue (qm.queue.indexOf uid + 1) = some tid)
    (htu : qm.db.get_user tid = none) :
    qm.assign_referral uid = ((false, none, none), qm) := by
  simp [QueueManager.assign_referral, h, hw, ht, hscan, htu]

theorem assign_referral_success (qm : QueueManager) (uid tid : Nat) (u tu : User)
    (h : qm.db.get_user uid = some u) (hw : u.status = UserStatus.waiting)
    (ht : truthyOptNat (qm.get_referral_target uid) = true)
    (hscan : scanForward qm.db uid qm.queue (qm.queue.indexOf uid + 1) = some tid)
    (htu : qm.db.get_user tid = some tu) :
    qm.assign_referral uid
      = ((true, some tu.referral_link, some tid),
         { qm with db := (qm.db.update_user_status uid UserStatus.assigned (some tid)).2 }) := by
  simp [QueueManager.assign_referral, h, hw, ht, hscan, htu]

theorem complete_not_found (qm : QueueManager) (uid : Nat)
    (h : qm.db.get_user uid = none) :
    qm.mark_referral_completed uid = ((false, "User not found."), qm) := by
  simp [QueueManager.mark_referral_completed, h]

theorem complete_not_assigned (qm : QueueManager) (uid : Nat) (u : User)
    (h : qm.db.get_user uid = some u) (hs : u.status ≠ UserStatus.assigned) :
    qm.mark_referral_completed uid
      = ((false, "You don\x27t have a pending referral to complete."), qm) := by
  simp [QueueManager.mark_referral_completed, h, hs]

theorem complete_success (qm : QueueManager) (uid : Nat) (u : User)
    (h : qm.db.get_user uid = some u) (hs : u.status = UserStatus.assigned) :
    qm.mark_referral_completed uid
      = ((true, "Referral completed! You\x27ve been added back to the queue."),
         (let db1 := (qm.db.increment_completed_referrals uid).2
          let db2 := if truthyOptNat u.assigned_to then
                       (db1.add_referral_history uid (u.assigned_to.getD 0)).2
                     else db1
          let db3 := (db2.update_user_status uid UserStatus.waiting none).2
          if uid ∈ qm.queue then
            saveQueueToDb { db := db3, queue := qm.queue.erase uid ++ [uid] }
          else { db := db3, queue := qm.queue })) := by
  simp [QueueManager.mark_referral_completed, h, hs]

theorem remove_not_in_queue (qm : QueueManager) (uid : Nat)
    (h : uid ∉ qm.queue) :
    qm.remove_user_from_queue uid = ((false, "User not in queue."), qm) := by
  simp [QueueManager.remove_user_from_queue, h]

theorem remove_in_queue (qm : QueueManager) (uid : Nat) (h : uid ∈ qm.queue) :
    qm.remove_user_from_queue uid
      = ((true, "User " ++ toString uid ++ " has been removed from the queue."),
         { db := { users := qm.db.users.filter (fun u => !(u.user_id == uid)),
                   referral_history := qm.db.referral_history,
                   queue_state := some (qm.queue.erase uid) },
           queue := qm.queue.erase uid }) := by
  simp [QueueManager.remove_user_from_queue, Database.remove_user, saveQueueToDb,
    Database.save_queue_state, h]

/-! ### The reachable-state invariant -/

theorem inv_empty : QueueInv QueueManager.empty := by
  refine ⟨List.nodup_nil, ?_, List.nodup_nil, ?_⟩
  · intro x; simp [QueueManager.empty]
  · intro u hu; simp [QueueManager.empty] at hu

theorem inv_update (qm : QueueManager) (hI : QueueInv qm) (uid : Nat)
    (st : UserStatus) (ato : Option Nat)
    (hok : (st = UserStatus.waiting ∧ ato = none) ∨
           (st = UserStatus.assigned ∧ ato ≠ none)) :
    QueueInv { qm with db := (qm.db.update_user_status uid st ato).2 } := by
  obtain ⟨hnq, hiff, hnd, hst⟩ := hI
  have hids : ((qm.db.update_user_status uid st ato).2).users.map (fun u => u.user_id)
      = qm.db.users.map (fun u => u.user_id) :=
    userId_map_pointwise qm.db.users uid _ (fun u => rfl)
  refine ⟨hnq, ?_, ?_, ?_⟩
  · intro x; rw [hiff x]; rw [hids]
  · rw [hids]; exact hnd
  · intro u hu
    have hu' : u ∈ qm.db.users.map (fun v =>
        if v.user_id == uid then { v with status := st, assigned_to := ato }
        else v) := hu
    rw [List.mem_map] at hu'
    obtain ⟨v, hv, rfl⟩ := hu'
    by_cases h : (v.user_id == uid) = true
    · rw [if_pos h]
      rcases hok with ⟨h1, h2⟩ | ⟨h1, h2⟩
      · subst h1; subst h2; left; exact ⟨rfl, rfl⟩
      · subst h1; right; exact ⟨rfl, h2⟩
    · rw [if_neg h]; exact hst v hv

theorem inv_increment (qm : QueueManager) (hI : QueueInv qm) (uid : Nat) :
    QueueInv { qm with db := (qm.db.increment_completed_referrals uid).2 } := by
  obtain ⟨hnq, hiff, hnd, hst⟩ := hI
  have hids : ((qm.db.increment_completed_referrals uid).2).users.map (fun u => u.user_id)
      = qm.db.users.map (fun u => u.user_id) :=
    userId_map_pointwise qm.db.users uid _ (fun u => rfl)
  refine ⟨hnq, ?_, ?_, ?_⟩
  · intro x; rw [hiff x]; rw [hids]
  · rw [hids]; exact hnd
  · intro u hu
    have hu' : u ∈ qm.db.users.map (fun v =>
        if v.user_id == uid then
          { v with completed_referrals := v.completed_referrals + 1 }
        else v) := hu
    rw [List.mem_map] at hu'
    obtain ⟨v, hv, rfl⟩ := hu'
    by_cases h : (v.user_id == uid) = true
    · rw [if_pos h]; simpa using hst v hv
    · rw [if_neg h]; exact hst v hv

theorem inv_history (qm : QueueManager) (hI : QueueInv qm) (a b : Nat) :
    QueueInv { qm with db := (qm.db.add_referral_history a b).2 } := by
  obtain ⟨hnq, hiff, hnd, hst⟩ := hI
  exact ⟨hnq, hiff, hnd, hst⟩

theorem inv_save (qm : QueueManager) (h : QueueInv qm) :
    QueueInv (saveQueueToDb qm) := by
  obtain ⟨a, b, c, d⟩ := h
  exact ⟨a, b, c, d⟩

theorem queueInv_move_to_tail (qm : QueueManager) (uid : Nat) (h : QueueInv qm)
    (hq : uid ∈ qm.queue) :
    QueueInv { db := qm.db, queue := qm.queue.erase uid ++ [uid] } := by
  obtain ⟨hnq, hiff, hnd, hst⟩ := h
  have hnqe : (qm.queue.erase uid).Nodup := hnq.erase uid
  have huide : uid ∉ qm.queue.erase uid := fun hc =>
    absurd ((hnq.mem_erase_iff).mp hc).1 (by simp)
  refine ⟨?_, ?_, hnd, hst⟩
  · show (qm.queue.erase uid ++ [uid]).Nodup
    simp [List.nodup_append, hnqe, huide]
  · intro x
    show x ∈ qm.queue.erase uid ++ [uid]
      ↔ x ∈ qm.db.users.map (fun u => u.user_id)
    by_cases hx : x = uid
    · subst hx
      constructor
      · intro _; exact (hiff x).mp hq
      · intro _; exact List.mem_append.mpr (Or.inr (List.mem_singleton.mpr rfl))
    · rw [List.mem_append, List.mem_singleton, hnq.mem_erase_iff, ← hiff x]
      constructor
      · rintro (⟨_, hm⟩ | h)
        · exact hm
        · exact absurd h hx
      · intro hm
        exact Or.inl ⟨hx, hm⟩

theorem inv_join (qm : QueueManager) (uid : Nat) (link : String)
    (hI : QueueInv qm) : QueueInv (qm.add_user_to_queue uid link).2 := by
  by_cases h1 : qm.db.user_exists uid = true
  · rw [add_user_already qm uid link h1]; exact hI
  · have h1' : qm.db.user_exists uid = false := by
      cases hb : qm.db.user_exists uid with
      | true => exact absurd hb h1
      | false => rfl
    by_cases h2 : qm.db.link_exists link = true
    · rw [add_user_duplicate_link qm uid link h1' h2]; exact hI
    · have h2' : qm.db.link_exists link = false := by
        cases hb : qm.db.link_exists link with
        | true => exact absurd hb h2
        | false => rfl
      rw [add_user_success qm uid link h1' h2']
      obtain ⟨hnq, hiff, hnd, hst⟩ := hI
      have huid : uid ∉ qm.db.users.map (fun u => u.user_id) := by
        intro hc
        have := (user_exists_iff qm.db uid).mpr hc
        rw [h1'] at this
        exact Bool.false_ne_true this
      have huidq : uid ∉ qm.queue := fun hc => huid ((hiff uid).mp hc)
      refine ⟨?_, ?_, ?_, ?_⟩
      · simp [List.nodup_append, hnq, huidq]
      · intro x
        simp only [List.mem_append, List.map_append, List.map_cons,
          List.map_nil, List.mem_singleton]
        rw [hiff x]
      · simp [List.nodup_append, hnd, huid]
      · intro u hu
        rcases List.mem_append.mp hu with h | h
        · exact hst u h
        · rw [List.mem_singleton] at h
          subst h
          left
          exact ⟨rfl, rfl⟩

theorem inv_assign (qm : QueueManager) (uid : Nat) (hI : QueueInv qm) :
    QueueInv (qm.assign_referral uid).2 := by
  cases hget : qm.db.get_user uid with
  | none => rw [assign_referral_not_found qm uid hget]; exact hI
  | some u =>
    by_cases hw : u.status = UserStatus.waiting
    · cases ht : truthyOptNat (qm.get_referral_target uid) with
      | false => rw [assign_referral_no_next qm uid u hget hw ht]; exact hI
      | true =>
        cases hscan : scanForward qm.db uid qm.queue (qm.queue.indexOf uid + 1) with
        | none => rw [assign_referral_scan_none qm uid u hget hw ht hscan]; exact hI
        | some tid =>
          cases htu : qm.db.get_user tid with
          | none =>
            rw [assign_referral_target_missing qm uid tid u hget hw ht hscan htu]
            exact hI
          | some tu =>
            rw [assign_referral_success qm uid tid u tu hget hw ht hscan htu]
            exact inv_update qm hI uid _ _ (Or.inr ⟨rfl, by simp⟩)
    · rw [assign_referral_not_waiting qm uid u hget hw]; exact hI

theorem inv_complete (qm : QueueManager) (uid : Nat) (hI : QueueInv qm) :
    QueueInv (qm.mark_referral_completed uid).2 := by
  cases hget : qm.db.get_user uid with
  | none => rw [complete_not_found qm uid hget]; exact hI
  | some u =>
    by_cases hs : u.status = UserStatus.assigned
    · rw [complete_success qm uid u hget hs]
      have hI1 : QueueInv { qm with db := (qm.db.increment_completed_referrals uid).2 } :=
        inv_increment qm hI uid
      have hI2 : QueueInv { qm with db :=
          (if truthyOptNat u.assigned_to then
            (((qm.db.increment_completed_referrals uid).2).add_referral_history
              uid (u.assigned_to.getD 0)).2
          else (qm.db.increment_completed_referrals uid).2) } := by
        cases htr : truthyOptNat u.assigned_to with
        | true =>
          rw [if_pos rfl]
          exact inv_history { qm with db := (qm.db.increment_completed_referrals uid).2 }
            hI1 uid (u.assigned_to.getD 0)
        | false =>
          simp only [Bool.false_eq_true, if_false]
          exact hI1
      have hI3 : QueueInv { qm with db :=
          ((if truthyOptNat u.assigned_to then
            (((qm.db.increment_completed_referrals uid).2).add_referral_history
              uid (u.assigned_to.getD 0)).2
          else (qm.db.increment_completed_referrals uid).2).update_user_status
            uid UserStatus.waiting none).2 } :=
        inv_update _ hI2 uid _ _ (Or.inl ⟨rfl, rfl⟩)
      by_cases hq : uid ∈ qm.queue
      · simp only [if_pos hq]
        exact inv_save _ (queueInv_move_to_tail _ uid hI3 hq)
      · simp only [if_neg hq]
        exact hI3
    · rw [complete_not_assigned qm uid u hget hs]; exact hI

theorem inv_remove (qm : QueueManager) (uid : Nat) (hI : QueueInv qm) :
    QueueInv (qm.remove_user_from_queue uid).2 := by
  by_cases hq : uid ∈ qm.queue
  · rw [remove_in_queue qm uid hq]
    obtain ⟨hnq, hiff, hnd, hst⟩ := hI
    refine ⟨hnq.erase uid, ?_, ?_, ?_⟩
    · intro x
      rw [hnq.mem_erase_iff]
      simp only [List.mem_map, List.mem_filter]
      constructor
      · rintro ⟨hx, hm⟩
        obtain ⟨v, hv, rfl⟩ := List.mem_map.mp ((hiff x).mp hm)
        refine ⟨v, ⟨hv, ?_⟩, rfl⟩
        simpa using hx
      · rintro ⟨v, ⟨hv, hvne⟩, rfl⟩
        have hvne' : v.user_id ≠ uid := by simpa using hvne
        exact ⟨hvne', (hiff v.user_id).mpr (List.mem_map.mpr ⟨v, hv, rfl⟩)⟩
    · exact ((List.filter_sublist qm.db.users).map (fun u => u.user_id)).nodup hnd
    · intro u hu
      exact hst u (List.mem_filter.mp hu).1
  · rw [remove_not_in_queue qm uid hq]; exact hI

/-- Every reachable state satisfies the structural invariant. -/
theorem reachable_inv {qm : QueueManager} (h : Reachable qm) : QueueInv qm := by
  induction h with
  | empty => exact inv_empty
  | join uid link _ ih => exact inv_join _ uid link ih
  | assign uid _ ih => exact inv_assign _ uid ih
  | complete uid _ ih => exact inv_complete _ uid ih
  | remove uid _ ih => exact inv_remove _ uid ih

/-! ### Claim theorems -/

/-- C6: in every state, `joinQueue(id, link)` fails with AlreadyInQueue
when a participant with that id already exists, fails with DuplicateLink
when the link is already registered to some participant, and otherwise
creates the participant with status WAITING and appends the id at the
tail of the queue order. -/
theorem join_queue_spec (qm : QueueManager) (uid : Nat) (link : String) :
    (qm.db.user_exists uid = true →
      qm.add_user_to_queue uid link
        = ((false, "You are already in the queue."), qm)) ∧
    (qm.db.user_exists uid = false → qm.db.link_exists link = true →
      qm.add_user_to_queue uid link
        = ((false, "This referral link is already registered."), qm)) ∧
    (qm.db.user_exists uid = false → qm.db.link_exists link = false →
      qm.add_user_to_queue uid link
        = ((true, "Your referral link has been added! You are in the queue."),
           { db := { users := qm.db.users ++
                       [{ user_id := uid, referral_link := link,
                          status := UserStatus.waiting }],
                     referral_history := qm.db.referral_history,
                     queue_state := some (qm.queue ++ [uid]) },
             queue := qm.queue ++ [uid] })) :=
  ⟨fun h => add_user_already qm uid link h,
   fun h1 h2 => add_user_duplicate_link qm uid link h1 h2,
   fun h1 h2 => add_user_success qm uid link h1 h2⟩

/-- Witness for C6: joining participant 1 with link "a" in the empty
state succeeds, creates a WAITING participant, and appends 1 at the tail. -/
theorem join_queue_spec_witness :
    QueueManager.empty.add_user_to_queue 1 "a"
      = ((true, "Your referral link has been added! You are in the queue."),
         { db := { users := QueueManager.empty.db.users ++
                     [{ user_id := 1, referral_link := "a",
                        status := UserStatus.waiting }],
                   referral_history := QueueManager.empty.db.referral_history,
                   queue_state := some (QueueManager.empty.queue ++ [1]) },
           queue := QueueManager.empty.queue ++ [1] }) :=
  (join_queue_spec QueueManager.empty 1 "a").2.2 rfl rfl

/-- C5 (amended: nonempty queue orders): a nonempty queue order saved via
`save_queue_state` over participants all present in the store is returned
exactly by `get_queue_state`, and a `QueueManager` constructed afresh over
that database has exactly that in-memory queue order. -/
theorem queue_persistence (db : Database) (q : List Nat) (hne : q ≠ [])
    (hall : ∀ uid ∈ q, db.user_exists uid = true) :
    (db.save_queue_state q).get_queue_state = some q ∧
    (QueueManager.ofDatabase (db.save_queue_state q)).queue = q := by
  refine ⟨rfl, ?_⟩
  cases q with
  | nil => exact absurd rfl hne
  | cons a t =>
    show ((a :: t).filter
        (fun uid => (db.save_queue_state (a :: t)).user_exists uid)) = a :: t
    rw [List.filter_eq_self]
    intro x hx
    exact hall x hx

/-- Witness for C5: the queue order `[1]` saved over a store containing
participant 1 survives a restart exactly. -/
theorem queue_persistence_witness :
    (dbSingle.save_queue_state [1]).get_queue_state = some [1] ∧
    (QueueManager.ofDatabase (dbSingle.save_queue_state [1])).queue = [1] :=
  queue_persistence dbSingle [1] (by decide)
    (by
      intro uid h
      rw [List.mem_singleton] at h
      subst h
      rfl)

/-- Counterexample for C5 as stated: the empty queue order (vacuously
"over participants all present in the store") saved over a store holding
one WAITING participant is returned exactly by `get_queue_state`, but the
freshly constructed `QueueManager` rebuilds `[1]` from participant status
instead of the saved `[]` — `if saved_queue:` treats the empty list as
missing. -/
theorem queue_persistence_empty_cex :
    (∀ uid ∈ ([] : List Nat), dbSingle.user_exists uid = true) ∧
    (dbSingle.save_queue_state []).get_queue_state = some [] ∧
    (QueueManager.ofDatabase (dbSingle.save_queue_state [])).queue = [1] := by
  refine ⟨?_, rfl, rfl⟩
  intro uid h
  exact absurd h (List.not_mem_nil uid)

/-- C7: `hasPaired(a, b)` is true exactly when a record with referrer `a`
and referee `b` was appended to the history, in that direction only: in
`qmAsym` the recorded pairing `(2, 1)` makes `hasPaired(2, 1)` true while
`hasPaired(1, 2)` stays false, and assignment of 1 still selects 2. -/
theorem has_paired_directional :
    (∀ (db : Database) (a b : Nat),
      db.has_interacted_before a b = true ↔ (a, b) ∈ db.referral_history) ∧
    (qmAsym.db.has_interacted_before 1 2 = false ∧
     qmAsym.db.has_interacted_before 2 1 = true) ∧
    (qmAsym.assign_referral 1).1 = (true, some "b", some 2) := by
  refine ⟨?_, ⟨rfl, rfl⟩, rfl⟩
  intro db a b
  constructor
  · intro h
    simp only [Database.has_interacted_before, List.any_eq_true] at h
    obtain ⟨x, hx, hb⟩ := h
    simp only [Bool.and_eq_true, beq_iff_eq] at hb
    obtain ⟨h1, h2⟩ := hb
    have hxab : x = (a, b) := Prod.ext h1 h2
    rw [hxab] at hx
    exact hx
  · intro h
    simp only [Database.has_interacted_before, List.any_eq_true]
    exact ⟨(a, b), h, by simp⟩

/-- C3: when participant P is WAITING and every participant strictly
after P in the queue order (possibly none, when P is last) has already
been paired with by P, `assign_referral` fails and leaves the whole
state — participant records, queue, and ledger — unchanged. -/
theorem assign_referral_exhaustion (qm : QueueManager) (P : Nat) (u : User)
    (hget : qm.db.get_user P = some u)
    (hw : u.status = UserStatus.waiting)
    (hmem : P ∈ qm.queue)
    (hall : ∀ k, qm.queue.indexOf P < k → k < qm.queue.length →
      qm.db.has_interacted_before P (qm.queue.getD k 0) = true) :
    qm.assign_referral P = ((false, none, none), qm) := by
  by_cases hlen : qm.queue.indexOf P + 1 < qm.queue.length
  · cases htr : truthyOptNat (qm.get_referral_target P) with
    | false => exact assign_referral_no_next qm P u hget hw htr
    | true =>
      have hscan : scanForward qm.db P qm.queue (qm.queue.indexOf P + 1) = none :=
        scanForward_eq_none qm.db P qm.queue _
          (fun k hk1 hk2 => hall k (by omega) hk2)
      exact assign_referral_scan_none qm P u hget hw htr hscan
  · have htarget : qm.get_referral_target P = none := by
      unfold QueueManager.get_referral_target QueueManager.get_queue_position
      rw [if_pos hmem]
      show (if qm.queue.indexOf P + 1 < qm.queue.length then
              some (qm.queue.getD (qm.queue.indexOf P + 1) 0)
            else none) = none
      rw [if_neg hlen]
    have htr : truthyOptNat (qm.get_referral_target P) = false := by
      rw [htarget]; rfl
    exact assign_referral_no_next qm P u hget hw htr

/-- Witness for C3: the exhaustion scenario of the spec — queue `[1, 2]` with
pairing `(1, 2)` recorded — makes `assign_referral 1` fail and leaves
the state untouched. -/
theorem assign_referral_exhaustion_witness :
    qmExh.assign_referral 1 = ((false, none, none), qmExh) :=
  assign_referral_exhaustion qmExh 1
    { user_id := 1, referral_link := "a", status := UserStatus.waiting,
      assigned_to := none, completed_referrals := 1 }
    rfl rfl (by decide)
    (by
      intro k h1 h2
      have e1 : qmExh.queue.indexOf 1 = 0 := rfl
      have e2 : qmExh.queue.length = 2 := rfl
      rw [e1] at h1
      rw [e2] at h2
      have hk : k = 1 := by omega
      subst hk
      rfl)

/-- C1 (amended: the participant directly after P must have a nonzero
id): when P is WAITING at queue index p and the first candidate not yet
paired with by P, scanning indices p+1, p+2, ... in order, sits at index
j, `assign_referral P` succeeds, returns the referral link of that candidate,
and updates exactly the record of P to ASSIGNED with `assigned_to` the
candidate. -/
theorem assign_referral_selects_first_eligible (qm : QueueManager)
    (P c p j : Nat) (u tc : User)
    (hget : qm.db.get_user P = some u)
    (hw : u.status = UserStatus.waiting)
    (hmem : P ∈ qm.queue)
    (hp : qm.queue.indexOf P = p)
    (hj1 : p + 1 ≤ j) (hj2 : j < qm.queue.length)
    (hc : qm.queue.getD j 0 = c)
    (helig : qm.db.has_interacted_before P c = false)
    (hbefore : ∀ k, p + 1 ≤ k → k < j →
      qm.db.has_interacted_before P (qm.queue.getD k 0) = true)
    (hnz : qm.queue.getD (p + 1) 0 ≠ 0)
    (htc : qm.db.get_user c = some tc) :
    qm.assign_referral P
      = ((true, some tc.referral_link, some c),
         { qm with db := (qm.db.update_user_status P UserStatus.assigned (some c)).2 }) := by
  have hlen : p + 1 < qm.queue.length := Nat.lt_of_le_of_lt hj1 hj2
  have htarget : qm.get_referral_target P = some (qm.queue.getD (p + 1) 0) := by
    unfold QueueManager.get_referral_target QueueManager.get_queue_position
    rw [if_pos hmem, hp]
    show (if p + 1 < qm.queue.length then
            some (qm.queue.getD (p + 1) 0)
          else none) = some (qm.queue.getD (p + 1) 0)
    rw [if_pos hlen]
  have ht : truthyOptNat (qm.get_referral_target P) = true := by
    rw [htarget]
    simpa [truthyOptNat] using hnz
  have hscan : scanForward qm.db P qm.queue (qm.queue.indexOf P + 1) = some c := by
    rw [hp]
    have h := scanForward_eq_some qm.db P qm.queue (p + 1) j hj1 hj2
      (by rw [hc]; exact helig) hbefore
    rw [hc] at h
    exact h
  exact assign_referral_success qm P c u tc hget hw ht hscan htc

/-- Witness for C1: in `qmAB` (queue `[1, 2]`, no history) the first
eligible candidate after participant 1 is participant 2, so assignment
returns link "b" and marks 1 as ASSIGNED to 2. -/
theorem assign_referral_selects_first_eligible_witness :
    qmAB.assign_referral 1
      = ((true, some "b", some 2),
         { qmAB with db := (qmAB.db.update_user_status 1 UserStatus.assigned (some 2)).2 }) :=
  assign_referral_selects_first_eligible qmAB 1 2 0 1
    { user_id := 1, referral_link := "a", status := UserStatus.waiting }
    { user_id := 2, referral_link := "b", status := UserStatus.waiting }
    rfl rfl (by decide) rfl (by decide) (by decide) rfl rfl
    (by intro k h1 h2; omega) (by decide) rfl

/-- Counterexample for C1 as stated: in the reachable state `qmZ1`
(queue `[1, 0]`, participant 1 WAITING at position 0, no history) the
first — and only — forward candidate is participant 0 with link "b" and
`hasPaired(1, 0)` false, so the claim requires success returning "b";
the truthiness check `if not target_id:` of the code on the id 0 makes
`assign_referral 1` fail and change nothing. -/
theorem assign_referral_id_zero_cex :
    Reachable qmZ1 ∧
    qmZ1.queue = [1, 0] ∧
    (qmZ1.db.get_user 1).map (fun u => u.status) = some UserStatus.waiting ∧
    qmZ1.db.get_user 0
      = some { user_id := 0, referral_link := "b", status := UserStatus.waiting } ∧
    qmZ1.db.has_interacted_before 1 0 = false ∧
    qmZ1.assign_referral 1 = ((false, none, none), qmZ1) :=
  ⟨Reachable.join 0 "b" (Reachable.join 1 "a" Reachable.empty),
   rfl, rfl, rfl, rfl, rfl⟩

/-- C4 (amended: a first WAITING participant with id 0 yields no
assignment without an attempt): `get_next_assignment` selects the first
queue entry whose stored status is WAITING; when none exists it returns
(none, none) unchanged; when the id of that participant is 0 it returns
(none, none) without attempting assignment; otherwise its result is
exactly the outcome of the single `assign_referral` attempt on that
participant — no other participant is retried. -/
theorem get_next_assignment_spec (qm : QueueManager) :
    (qm.get_next_user_to_assign = none →
      qm.get_next_assignment = ((none, none), qm)) ∧
    (∀ w, qm.get_next_user_to_assign = some w →
      ∃ u, qm.db.get_user w = some u ∧ u.status = UserStatus.waiting) ∧
    (∀ w, qm.get_next_user_to_assign = some w → w = 0 →
      qm.get_next_assignment = ((none, none), qm)) ∧
    (∀ w, qm.get_next_user_to_assign = some w → w ≠ 0 →
      qm.get_next_assignment =
        (if (qm.assign_referral w).1.1 = true then
          ((some w, (qm.assign_referral w).1.2.1),
           saveQueueToDb (qm.assign_referral w).2)
        else ((none, none), (qm.assign_referral w).2))) := by
  refine ⟨?_, ?_, ?_, ?_⟩
  · intro h
    simp [QueueManager.get_next_assignment, h]
  · intro w hw
    have hp := List.find?_some hw
    cases hgu : qm.db.get_user w with
    | none =>
      rw [hgu] at hp
      simp at hp
    | some u =>
      rw [hgu] at hp
      refine ⟨u, rfl, ?_⟩
      simpa using hp
  · intro w hw h0
    subst h0
    simp [QueueManager.get_next_assignment, hw]
  · intro w hw hnz
    simp only [QueueManager.get_next_assignment, hw]
    have hb : (w == 0) = false := by simpa using hnz
    rw [hb]
    show (if (qm.assign_referral w).1.1 = true then
            ((some w, (qm.assign_referral w).1.2.1),
             saveQueueToDb (qm.assign_referral w).2)
          else ((none, none), (qm.assign_referral w).2)) = _
    rfl

/-- Witness for C4: in `qmAB` the first WAITING participant is 1 (id
nonzero), and the outcome of the driver is exactly that of the single
`assign_referral 1` attempt. -/
theorem get_next_assignment_spec_witness :
    qmAB.get_next_assignment =
      (if (qmAB.assign_referral 1).1.1 = true then
        ((some 1, (qmAB.assign_referral 1).1.2.1),
         saveQueueToDb (qmAB.assign_referral 1).2)
      else ((none, none), (qmAB.assign_referral 1).2)) :=
  (get_next_assignment_spec qmAB).2.2.2 1 rfl (by decide)

/-- Counterexample for C4 as stated: in the reachable state `qmZ0`
(queue `[0, 1]`, both WAITING) the first WAITING participant is 0 and a
single `assign_referral 0` attempt would succeed with link "b", so the
claim requires `get_next_assignment` to return that outcome; the truthiness check
`if not next_user:` of the code instead returns (none, none)
without attempting any assignment, leaving the state unchanged. -/
theorem get_next_assignment_zero_cex :
    Reachable qmZ0 ∧
    qmZ0.get_next_user_to_assign = some 0 ∧
    (qmZ0.assign_referral 0).1 = (true, some "b", some 1) ∧
    qmZ0.get_next_assignment = ((none, none), qmZ0) :=
  ⟨Reachable.join 1 "b" (Reachable.join 0 "a" Reachable.empty),
   rfl, rfl, rfl⟩

/-- C8: in every state reachable from the empty state by the Queue
Manager operations, every stored participant is WAITING or ASSIGNED
(DONE is never written), and `assigned_to` is non-null exactly when the
status is ASSIGNED. -/
theorem participant_status_invariant (qm : QueueManager) (hr : Reachable qm)
    (u : User) (hu : u ∈ qm.db.users) :
    (u.status = UserStatus.waiting ∨ u.status = UserStatus.assigned) ∧
    (u.assigned_to ≠ none ↔ u.status = UserStatus.assigned) := by
  obtain ⟨_, _, _, hst⟩ := reachable_inv hr
  rcases hst u hu with ⟨h1, h2⟩ | ⟨h1, h2⟩
  · exact ⟨Or.inl h1, by simp [h1, h2]⟩
  · exact ⟨Or.inr h1, by simp [h1, h2]⟩

/-- Witness for C8: the participant created by joining 1 in the empty
state is WAITING with no assignment. -/
theorem participant_status_invariant_witness :
    (({ user_id := 1, referral_link := "a",
        status := UserStatus.waiting } : User).status = UserStatus.waiting ∨
     ({ user_id := 1, referral_link := "a",
        status := UserStatus.waiting } : User).status = UserStatus.assigned) ∧
    (({ user_id := 1, referral_link := "a",
        status := UserStatus.waiting } : User).assigned_to ≠ none ↔
     ({ user_id := 1, referral_link := "a",
        status := UserStatus.waiting } : User).status = UserStatus.assigned) :=
  participant_status_invariant qmA
    (Reachable.join 1 "a" Reachable.empty)
    { user_id := 1, referral_link := "a", status := UserStatus.waiting }
    (by decide)

/-- C9: in every reachable state each participant id appears at most
once in the queue order, and the ids in the queue order are exactly the
participant ids present in the store. -/
theorem queue_membership_invariant (qm : QueueManager) (hr : Reachable qm)
    (x : Nat) :
    qm.queue.Nodup ∧
    (x ∈ qm.queue ↔ ∃ u ∈ qm.db.users, u.user_id = x) := by
  obtain ⟨hnq, hiff, _, _⟩ := reachable_inv hr
  refine ⟨hnq, ?_⟩
  rw [hiff x, List.mem_map]

/-- Witness for C9: the reachable state after joining 1 has the
duplicate-free queue `[1]` whose entries match the store. -/
theorem queue_membership_invariant_witness :
    qmA.queue.Nodup ∧
    (1 ∈ qmA.queue ↔ ∃ u ∈ qmA.db.users, u.user_id = 1) :=
  queue_membership_invariant qmA (Reachable.join 1 "a" Reachable.empty) 1

/-- C10: in every reachable state in which participant B exists (any
status), removal succeeds, deletes B from both the store and the queue
order, and a subsequent info query reports not-found. -/
theorem remove_participant_spec (qm : QueueManager) (hr : Reachable qm)
    (B : Nat) (u : User) (hget : qm.db.get_user B = some u) :
    (qm.remove_user_from_queue B).1.1 = true ∧
    ((qm.remove_user_from_queue B).2).db.user_exists B = false ∧
    B ∉ ((qm.remove_user_from_queue B).2).queue ∧
    ((qm.remove_user_from_queue B).2).get_user_info B = none := by
  obtain ⟨hnq, hiff, hnd, hst⟩ := reachable_inv hr
  obtain ⟨humem, huid⟩ := get_user_mem hget
  have hmem : B ∈ qm.queue := (hiff B).mpr (List.mem_map.mpr ⟨u, humem, huid⟩)
  rw [remove_in_queue qm B hmem]
  have hgone : (qm.db.users.filter (fun v => !(v.user_id == B))).find?
      (fun v => v.user_id == B) = none := by
    rw [List.find?_eq_none]
    intro v hv
    simpa using (List.mem_filter.mp hv).2
  refine ⟨rfl, ?_, ?_, ?_⟩
  · show (qm.db.users.filter (fun v => !(v.user_id == B))).any
        (fun v => v.user_id == B) = false
    rw [List.any_eq_false]
    intro v hv
    simpa using (List.mem_filter.mp hv).2
  · intro hc
    exact absurd ((hnq.mem_erase_iff).mp hc).1 (by simp)
  · unfold QueueManager.get_user_info
    show (match (qm.db.users.filter (fun v => !(v.user_id == B))).find?
        (fun v => v.user_id == B) with
      | none => none
      | some user => _) = none
    rw [hgone]

/-- Witness for C10: removing participant 1 from the reachable state
`qmA` deletes it from both structures and the info query reports
not-found. -/
theorem remove_participant_spec_witness :
    (qmA.remove_user_from_queue 1).1.1 = true ∧
    ((qmA.remove_user_from_queue 1).2).db.user_exists 1 = false ∧
    1 ∉ ((qmA.remove_user_from_queue 1).2).queue ∧
    ((qmA.remove_user_from_queue 1).2).get_user_info 1 = none :=
  remove_participant_spec qmA (Reachable.join 1 "a" Reachable.empty) 1
    { user_id := 1, referral_link := "a", status := UserStatus.waiting } rfl

/-- C2 (amended: the stored target id T must be nonzero): in every
reachable state in which participant P is ASSIGNED with
`assigned_to = some T`, completion succeeds, `hasPaired(P, T)` becomes
true, the completed count of P grows by exactly 1, the record of P is reset to
WAITING with no assignment, and P moves to the last queue position. -/
theorem complete_referral_spec (qm : QueueManager) (hr : Reachable qm)
    (P T : Nat) (u : User)
    (hget : qm.db.get_user P = some u)
    (hst : u.status = UserStatus.assigned)
    (hat : u.assigned_to = some T)
    (hT : T ≠ 0) :
    (qm.mark_referral_completed P).1
        = (true, "Referral completed! You\x27ve been added back to the queue.") ∧
    ((qm.mark_referral_completed P).2).db.has_interacted_before P T = true ∧
    ((qm.mark_referral_completed P).2).db.get_user P
        = some { u with
                 status := UserStatus.waiting,
                 assigned_to := none,
                 completed_referrals := u.completed_referrals + 1 } ∧
    ((qm.mark_referral_completed P).2).queue = qm.queue.erase P ++ [P] ∧
    ((qm.mark_referral_completed P).2).queue.getLast? = some P := by
  obtain ⟨hnq, hiff, hnd, hsts⟩ := reachable_inv hr
  obtain ⟨humem, huid⟩ := get_user_mem hget
  have hmem : P ∈ qm.queue := (hiff P).mpr (List.mem_map.mpr ⟨u, humem, huid⟩)
  have htr : truthyOptNat u.assigned_to = true := by
    rw [hat]; simpa [truthyOptNat] using hT
  have hgetD : u.assigned_to.getD 0 = T := by rw [hat]; rfl
  have hstate : qm.mark_referral_completed P
      = ((true, "Referral completed! You\x27ve been added back to the queue."),
         saveQueueToDb
           { db := ((((qm.db.increment_completed_referrals P).2).add_referral_history
                       P T).2.update_user_status P UserStatus.waiting none).2,
             queue := qm.queue.erase P ++ [P] }) := by
    rw [complete_success qm P u hget hst]
    simp [htr, hgetD, hmem]
  rw [hstate]
  refine ⟨rfl, ?_, ?_, rfl, ?_⟩
  · show ((qm.db.referral_history ++ [(P, T)]).any
        (fun p => p.1 == P && p.2 == T)) = true
    simp
  · show ((((qm.db.increment_completed_referrals P).2).add_referral_history
        P T).2.update_user_status P UserStatus.waiting none).2.get_user P
        = some { u with
                 status := UserStatus.waiting,
                 assigned_to := none,
                 completed_referrals := u.completed_referrals + 1 }
    rw [get_user_update]
    have e : (((qm.db.increment_completed_referrals P).2).add_referral_history
        P T).2.get_user P = ((qm.db.increment_completed_referrals P).2).get_user P := rfl
    rw [e, get_user_increment, hget]
    rfl
  · show (qm.queue.erase P ++ [P]).getLast? = some P
    exact List.getLast?_concat _

/-- Witness for C2: in the reachable state where 1 is ASSIGNED to 2,
completion records the pairing (1, 2), bumps the count to 1, resets 1 to
WAITING, and moves 1 to the tail. -/
theorem complete_referral_spec_witness :
    (qmABassigned.mark_referral_completed 1).1
        = (true, "Referral completed! You\x27ve been added back to the queue.") ∧
    ((qmABassigned.mark_referral_completed 1).2).db.has_interacted_before 1 2 = true ∧
    ((qmABassigned.mark_referral_completed 1).2).db.get_user 1
        = some { user_id := 1, referral_link := "a",
                 status := UserStatus.waiting, assigned_to := none,
                 completed_referrals := 1 } ∧
    ((qmABassigned.mark_referral_completed 1).2).queue
        = qmABassigned.queue.erase 1 ++ [1] ∧
    ((qmABassigned.mark_referral_completed 1).2).queue.getLast? = some 1 :=
  complete_referral_spec qmABassigned
    (Reachable.assign 1 (Reachable.join 2 "b" (Reachable.join 1 "a" Reachable.empty)))
    1 2
    { user_id := 1, referral_link := "a", status := UserStatus.assigned,
      assigned_to := some 2, completed_referrals := 0 }
    rfl rfl rfl (by decide)

/-- Counterexample for C2 as stated: in the reachable state `qmT0`
participant 1 is ASSIGNED with `assigned_to = some 0`; completion
succeeds, but the `if target_id:` truthiness check skips the ledger
write for the id 0, so `hasPaired(1, 0)` stays false and the history is
unchanged — while the claim requires `hasPaired(P, T)` to become true. -/
theorem complete_referral_zero_target_cex :
    Reachable qmT0 ∧
    qmT0.db.get_user 1
      = some { user_id := 1, referral_link := "a",
               status := UserStatus.assigned, assigned_to := some 0,
               completed_referrals := 1 } ∧
    (qmT0.mark_referral_completed 1).1.1 = true ∧
    ((qmT0.mark_referral_completed 1).2).db.has_interacted_before 1 0 = false ∧
    ((qmT0.mark_referral_completed 1).2).db.referral_history
      = qmT0.db.referral_history :=
  ⟨Reachable.assign 1 (Reachable.join 0 "c" (Reachable.complete 2 (Reachable.assign 2
     (Reachable.complete 1 (Reachable.assign 1 (Reachable.join 2 "b"
       (Reachable.join 1 "a" Reachable.empty))))))),
   rfl, rfl, rfl, rfl⟩
